import Mathlib

/-!
Shallow embedding of the `pepper` JSON-like parser (src/src/lexer.rs and
src/src/parser.rs), together with theorems settling the behavioural claims
about it.

Modelling conventions:
* Rust `&str` input is modelled as `List Char`; the lexer's `index` field is a
  BYTE offset, exactly as in the source.  Byte slicing `input[i..]` is modelled
  by `suffixAt`, which yields `none` when `i` is not on a UTF-8 character
  boundary (in Rust this is a panic).
* Rust panics (byte-boundary panics, the `f64::from_str(..).unwrap()` panic in
  `lex_number`, the `lines().nth(..).unwrap()` panic in the error path) are
  modelled by the `Crash` outcome.
* `f64` is modelled by `F64`: an exact rational for finite doubles plus the two
  infinities.  `f64::from_str` is modelled by `parseF64`, which follows the
  grammar accepted by Rust's float parser and rounds the exact decimal value to
  binary64 with round-to-nearest, ties-to-even (`roundF64`); decimal values at
  or beyond the overflow threshold 2^1024 - 2^970 become infinities, exactly as
  Rust's correctly-rounded float parsing does.  NaN is unreachable from the
  character set the lexer admits, so `F64` has no NaN.
* The scanning loop and the recursive-descent parser are written with an
  explicit fuel argument so that every definition is structurally recursive and
  kernel-reducible.  Running out of fuel gives the distinguished artefact
  results `Crash.outOfFuel` / `PError.outOfFuel`; the fuel supplied by `lex`
  and `parse` (one unit per input byte / per token, plus slack) is never
  exhausted, since every loop iteration of the source consumes at least one
  byte (resp. one token).
-/

namespace Pepper

/-- Reasons the Rust code panics (plus the fuel artefact of the embedding). -/
inductive Crash where
  | charBoundary
  | numberUnwrap
  | lineUnwrap
  | outOfFuel
deriving DecidableEq

/-- Model of finite-or-infinite IEEE-754 doubles reachable from the lexer. -/
inductive F64 where
  | finite (q : ℚ)
  | inf
  | neginf
deriving DecidableEq

/-- `Token` from src/src/lexer.rs. -/
inductive Token where
  | string (s : List Char)
  | number (n : F64)
  | bool (b : Bool)
  | null
  | punct (c : Char)
deriving DecidableEq

/-- `Error` from src/src/lexer.rs (field names as in the source). -/
structure LexError where
  text : List Char
  line : Nat
  col : Nat
deriving DecidableEq

/-- `Lexer` scan state from src/src/lexer.rs. -/
structure Lexer where
  line : Nat
  col : Nat
  index : Nat
deriving DecidableEq

/-- Result of `Lexer::lex`: token list, lexer error, or a panic. -/
inductive LexOutcome where
  | ok (tokens : List Token)
  | err (e : LexError)
  | fatal (c : Crash)
deriving DecidableEq

/-- `WHITESPACE` table from src/src/lexer.rs. -/
def WHITESPACE : List Char := ['\t', '\r', ' ', '\n']

/-- `PUNCTUATION` table from src/src/lexer.rs. -/
def PUNCTUATION : List Char := ['(', ')', '[', ']', '{', '}', ':', ',']

/-- `NUMBER_CHAR` table from src/src/lexer.rs. -/
def NUMBER_CHAR : List Char := ['-', '+', '.', 'e', 'E']

/-- Byte length of a character sequence (Rust `str::len`). -/
def byteLen (cs : List Char) : Nat := (cs.map Char.utf8Size).sum

/-- Model of the byte slice `input[i..]` of a UTF-8 string: the character
suffix starting at byte offset `i`, or `none` (Rust: panic) when `i` is not a
character boundary or is out of range. -/
def suffixAt : List Char → Nat → Option (List Char)
  | cs, 0 => some cs
  | [], _ + 1 => none
  | c :: cs, n + 1 =>
    if n + 1 < c.utf8Size then none
    else suffixAt cs (n + 1 - c.utf8Size)

/-- Model of taking the first `n` BYTES of a UTF-8 string as characters, or
`none` (Rust: panic) when `n` is not a character boundary of it. -/
def takeBytes : List Char → Nat → Option (List Char)
  | _, 0 => some []
  | [], _ + 1 => none
  | c :: cs, n + 1 =>
    if n + 1 < c.utf8Size then none
    else (takeBytes cs (n + 1 - c.utf8Size)).map (c :: ·)

/-- Value of a list of decimal digit characters. -/
def digitsVal (ds : List Char) : ℕ :=
  ds.foldl (fun a c => 10 * a + (c.toNat - '0'.toNat)) 0

/-- Fueled binary exponentiation on `Nat` (structurally recursive, hence
kernel-reducible, unlike `Nat.pow` unfolding for large exponents). -/
def powAux : Nat → Nat → Nat → Nat
  | 0, _, _ => 1
  | fuel + 1, b, e =>
    if e = 0 then 1
    else if e % 2 = 1 then b * powAux fuel (b * b) (e / 2)
    else powAux fuel (b * b) (e / 2)

/-- `b ^ e` on `Nat`, computably (fuel `e` always suffices, since the exponent
at least halves on each step). -/
def powNat (b e : Nat) : Nat := powAux e b e

/-- Fueled `⌊log2⌋` on `Nat` (structurally recursive replacement for the
well-founded `Nat.log2`). -/
def natLog2Aux : Nat → Nat → Nat
  | 0, _ => 0
  | fuel + 1, n => if n ≤ 1 then 0 else 1 + natLog2Aux fuel (n / 2)

/-- `⌊log2 n⌋`, computably (0 for `n ≤ 1`; fuel `n` always suffices). -/
def natLog2 (n : Nat) : Nat := natLog2Aux n n

/-- `2 ^ z` as a rational, computably, for an integer exponent. -/
def qpow2 (z : ℤ) : ℚ :=
  if 0 ≤ z then ((powNat 2 z.toNat : ℕ) : ℚ) else (1 : ℚ) / ((powNat 2 (-z).toNat : ℕ) : ℚ)

/-- `10 ^ z` as a rational, computably, for an integer exponent. -/
def qpow10 (z : ℤ) : ℚ :=
  if 0 ≤ z then ((powNat 10 z.toNat : ℕ) : ℚ) else (1 : ℚ) / ((powNat 10 (-z).toNat : ℕ) : ℚ)

/-- Computable floor of a rational. -/
def ratFloor (q : ℚ) : ℤ := Int.fdiv q.num q.den

/-- Computable absolute value of a rational. -/
def ratAbs (q : ℚ) : ℚ := if q < 0 then -q else q

/-- Computable `⌊log2 q⌋` for a positive rational `q`.  For `q = a / b` with
`a ∈ [2^t, 2^(t+1))` and `b ∈ [2^s, 2^(s+1))` the floor is `t - s` or
`t - s - 1`, decided by one comparison. -/
def floorLog2 (q : ℚ) : ℤ :=
  let t : ℤ := natLog2 q.num.natAbs
  let s : ℤ := natLog2 q.den
  if qpow2 (t - s) ≤ q then t - s else t - s - 1

/-- Round a rational to the nearest IEEE-754 binary64 value, ties to even.
Finite doubles are `m * 2^e` with `|m| < 2^53` and `e ≥ -1074`; magnitudes at
or above `2^1024 - 2^970` (the midpoint between the largest finite double and
`2^1024`) round to infinity.  This is the correctly-rounded semantics that
Rust's `f64::from_str` implements for decimal input. -/
def roundF64 (q : ℚ) : F64 :=
  if q = 0 then .finite 0
  else
    let aq := ratAbs q
    if qpow2 1024 - qpow2 970 ≤ aq then
      if q < 0 then .neginf else .inf
    else
      let k := floorLog2 aq
      let e : ℤ := max (-1074) (k - 52)
      let n : ℚ := aq * qpow2 (-e)
      let f : ℤ := ratFloor n
      let r : ℚ := n - (f : ℚ)
      let m : ℤ :=
        if r < 1 / 2 then f
        else if 1 / 2 < r then f + 1
        else if f % 2 = 0 then f else f + 1
      let v : ℚ := (m : ℚ) * qpow2 e
      .finite (if q < 0 then -v else v)

/-- Exact rational value of a decimal literal with integer-part digits `ip`,
fraction digits `fp` and decimal exponent `ex`, negated when `neg`. -/
def ratOfParts (neg : Bool) (ip fp : List Char) (ex : ℤ) : ℚ :=
  let m : ℚ := ((digitsVal ip * powNat 10 fp.length + digitsVal fp : ℕ) : ℚ)
  let v := m / ((powNat 10 fp.length : ℕ) : ℚ) * qpow10 ex
  if neg then -v else v

/-- Model of Rust's `f64::from_str` on the character set the lexer can emit
(digits and `- + . e E`; the `inf` / `nan` keywords are unreachable).  The
accepted grammar is: optional sign, digits with at most one dot (at least one
digit in total), then an optional `e`/`E` exponent with optional sign and at
least one digit; nothing may remain.  The decimal value is rounded to binary64
by `roundF64`. -/
def parseF64 (cs : List Char) : Option F64 :=
  let signSplit : Bool × List Char :=
    match cs with
    | '-' :: r => (true, r)
    | '+' :: r => (false, r)
    | _ => (false, cs)
  let neg := signSplit.1
  let cs1 := signSplit.2
  let ip := cs1.takeWhile Char.isDigit
  let cs2 := cs1.drop ip.length
  let fracSplit : List Char × List Char :=
    match cs2 with
    | '.' :: r => (r.takeWhile Char.isDigit, r.drop (r.takeWhile Char.isDigit).length)
    | _ => ([], cs2)
  let fp := fracSplit.1
  let cs3 := fracSplit.2
  if ip.length + fp.length = 0 then none
  else
    match cs3 with
    | [] => some (roundF64 (ratOfParts neg ip fp 0))
    | e :: r =>
      if e = 'e' ∨ e = 'E' then
        let esignSplit : Bool × List Char :=
          match r with
          | '-' :: rr => (true, rr)
          | '+' :: rr => (false, rr)
          | _ => (false, r)
        let eneg := esignSplit.1
        let r1 := esignSplit.2
        let ed := r1.takeWhile Char.isDigit
        let r2 := r1.drop ed.length
        if ed.isEmpty then none
        else if r2.isEmpty then
          some (roundF64 (ratOfParts neg ip fp
            (if eneg then -(digitsVal ed : ℤ) else (digitsVal ed : ℤ))))
        else none
      else none

/-- Character class used by `lex_number`: a decimal digit or one of
`NUMBER_CHAR` (the two `unwrap_or` defaults `'X'` and `' '` in the source fail
both tests, so the condition is just this on the peeked character). -/
def isNumChar (c : Char) : Bool := c.isDigit || NUMBER_CHAR.contains c

/-- Body of the `while` loop of `eat_whitespace` (src/src/lexer.rs): consume a
maximal whitespace run from the already-sliced suffix, updating line/col/index
per character; the Bool records whether anything was consumed. -/
def eatWsLoop : List Char → Lexer → Bool → Bool × Lexer
  | [], st, acc => (acc, st)
  | c :: cs, st, acc =>
    if WHITESPACE.contains c then
      let st' :=
        if c = '\n' then { st with line := st.line + 1, col := 0, index := st.index + 1 }
        else { st with col := st.col + 1, index := st.index + 1 }
      eatWsLoop cs st' true
    else (acc, st)

/-- `Lexer::eat_whitespace`.  The initial `input[self.index..]` slice panics
(`Crash.charBoundary`) off a character boundary. -/
def eatWhitespace (input : List Char) (st : Lexer) : Except Crash (Bool × Lexer) :=
  match suffixAt input st.index with
  | none => .error .charBoundary
  | some cs => .ok (eatWsLoop cs st false)

/-- Body of the `for ch in chars` loop of `lex_string`: index and col advance
by ONE per character (the byte/char confusion of the source is preserved); a
backslash escapes exactly the next character and both are pushed verbatim; an
unescaped quote stops; end of input stops silently. -/
def lexStrLoop : List Char → List Char → Bool → Lexer → List Char × Lexer
  | [], s, _, st => (s, st)
  | c :: cs, s, esc, st =>
    let st' := { st with index := st.index + 1, col := st.col + 1 }
    if esc then lexStrLoop cs (s ++ [c]) false st'
    else if c = '\\' then lexStrLoop cs (s ++ [c]) true st'
    else if c = '"' then (s, st')
    else lexStrLoop cs (s ++ [c]) false st'

/-- `Lexer::lex_string`. -/
def lexString (input : List Char) (st : Lexer) : Except Crash (Option (List Char) × Lexer) :=
  match suffixAt input st.index with
  | none => .error .charBoundary
  | some cs =>
    match cs with
    | c :: rest =>
      if c = '"' then
        let st1 := { st with index := st.index + 1, col := st.col + 1 }
        let p := lexStrLoop rest [] false st1
        .ok (some p.1, p.2)
      else .ok (none, st)
    | [] => .ok (none, st)

/-- `Lexer::lex_number`: take the maximal run of number characters; an empty
run yields `none`; a non-empty run that `f64::from_str` rejects is the
`unwrap()` panic (`Crash.numberUnwrap`). -/
def lexNumber (input : List Char) (st : Lexer) : Except Crash (Option F64 × Lexer) :=
  match suffixAt input st.index with
  | none => .error .charBoundary
  | some cs =>
    let run := cs.takeWhile isNumChar
    if run.isEmpty then .ok (none, st)
    else
      let st' := { st with index := st.index + run.length, col := st.col + run.length }
      match parseF64 run with
      | some v => .ok (some v, st')
      | none => .error .numberUnwrap

/-- Second half of `Lexer::lex_boolean`: the `false` comparison.  Taking 5
bytes of the suffix panics when byte 5 falls inside a character. -/
def lexBooleanFalse (cs : List Char) (st : Lexer) : Except Crash (Option Bool × Lexer) :=
  if 5 ≤ byteLen cs then
    match takeBytes cs 5 with
    | none => .error .charBoundary
    | some t =>
      if t = ['f', 'a', 'l', 's', 'e'] then
        .ok (some false, { st with index := st.index + 5, col := st.col + 5 })
      else .ok (none, st)
  else .ok (none, st)

/-- `Lexer::lex_boolean`: raw byte comparison of `input[index..index+4]` with
`"true"` (then `..+5` with `"false"`), with NO word-boundary check. -/
def lexBoolean (input : List Char) (st : Lexer) : Except Crash (Option Bool × Lexer) :=
  match suffixAt input st.index with
  | none => .error .charBoundary
  | some cs =>
    if 4 ≤ byteLen cs then
      match takeBytes cs 4 with
      | none => .error .charBoundary
      | some t =>
        if t = ['t', 'r', 'u', 'e'] then
          .ok (some true, { st with index := st.index + 4, col := st.col + 4 })
        else lexBooleanFalse cs st
    else lexBooleanFalse cs st

/-- `Lexer::lex_null`: raw byte comparison with `"null"`, no boundary check. -/
def lexNull (input : List Char) (st : Lexer) : Except Crash (Bool × Lexer) :=
  match suffixAt input st.index with
  | none => .error .charBoundary
  | some cs =>
    if 4 ≤ byteLen cs then
      match takeBytes cs 4 with
      | none => .error .charBoundary
      | some t =>
        if t = ['n', 'u', 'l', 'l'] then
          .ok (true, { st with index := st.index + 4, col := st.col + 4 })
        else .ok (false, st)
    else .ok (false, st)

/-- Rust `str::lines`: split at `'\n'`, drop a final empty segment produced by
a trailing newline, and strip one trailing `'\r'` from each line. -/
def splitNl : List Char → List (List Char)
  | [] => [[]]
  | c :: cs =>
    if c = '\n' then [] :: splitNl cs
    else
      match splitNl cs with
      | [] => [[c]]
      | l :: ls => (c :: l) :: ls

/-- Strip one trailing carriage return (the `\r` of a `\r\n` line ending). -/
def stripTrailingCr (l : List Char) : List Char :=
  if l.getLast? = some '\r' then l.dropLast else l

/-- Rust `str::lines` over a character list. -/
def linesRust (cs : List Char) : List (List Char) :=
  if cs.isEmpty then []
  else
    let parts := splitNl cs
    let parts' := if cs.getLast? = some '\n' then parts.dropLast else parts
    parts'.map stripTrailingCr

/-- The error construction of `Lexer::lex` (src/src/lexer.rs lines 211-216):
`text` is `input.lines().nth(self.line).unwrap()` (panic when absent), the
`line` FIELD is assigned `(self.col + 1).to_string().len() + 1` — the margin
width of the `Display` impl, not the line number — and `col` is `self.col`. -/
def mkError (input : List Char) (st : Lexer) : LexOutcome :=
  match (linesRust input)[st.line]? with
  | none => .fatal .lineUnwrap
  | some text =>
    .err { text := text, line := (Nat.toDigits 10 (st.col + 1)).length + 1, col := st.col }

/-- The `while self.index < input_len` loop of `Lexer::lex`, with fuel.  Each
iteration tries, in source order: whitespace, string, number, boolean, null,
punctuation; otherwise it builds the lexer error.  One fuel unit is spent per
iteration; every iteration of the source advances `index` by at least one
byte, so the fuel `byteLen input + 1` supplied by `lex` is never exhausted. -/
def lexLoopF : Nat → List Char → Lexer → List Token → LexOutcome
  | 0, _, _, _ => .fatal .outOfFuel
  | fuel + 1, input, st, tokens =>
    if st.index < byteLen input then
      match eatWhitespace input st with
      | .error c => .fatal c
      | .ok (isWs, st1) =>
        if isWs then lexLoopF fuel input st1 tokens
        else
          match lexString input st1 with
          | .error c => .fatal c
          | .ok (some s, st2) => lexLoopF fuel input st2 (tokens ++ [.string s])
          | .ok (none, st2) =>
            match lexNumber input st2 with
            | .error c => .fatal c
            | .ok (some n, st3) => lexLoopF fuel input st3 (tokens ++ [.number n])
            | .ok (none, st3) =>
              match lexBoolean input st3 with
              | .error c => .fatal c
              | .ok (some b, st4) => lexLoopF fuel input st4 (tokens ++ [.bool b])
              | .ok (none, st4) =>
                match lexNull input st4 with
                | .error c => .fatal c
                | .ok (true, st5) => lexLoopF fuel input st5 (tokens ++ [.null])
                | .ok (false, st5) =>
                  match suffixAt input st5.index with
                  | none => .fatal .charBoundary
                  | some cs =>
                    match cs with
                    | c :: _ =>
                      if PUNCTUATION.contains c then
                        lexLoopF fuel input
                          { st5 with index := st5.index + 1, col := st5.col + 1 }
                          (tokens ++ [.punct c])
                      else mkError input st5
                    | [] => mkError input st5
    else .ok tokens

/-- `Lexer::lex` on a fresh `Lexer::new()` state. -/
def lex (input : List Char) : LexOutcome :=
  lexLoopF (byteLen input + 1) input ⟨0, 0, 0⟩ []

/-- `Value` from src/src/parser.rs.  The `HashMap<String, Value>` of `Object`
is modelled as an association list; `insertAssoc` below implements the
observable key-to-value behaviour of `HashMap::insert` (replace the binding if
the key is present, add it otherwise). -/
inductive Value where
  | object (entries : List (List Char × Value))
  | list (l : List Value)
  | boolean (b : Bool)
  | null
  | number (n : F64)
  | string (s : List Char)

/-- `Error` from src/src/parser.rs, plus the fuel artefact of the embedding
(`outOfFuel` is unreachable for the fuel `parse` supplies). -/
inductive PError where
  | lexError (e : LexError)
  | parseError (msg : String)
  | outOfFuel
deriving DecidableEq

/-- Approximation of Rust's `Debug` rendering of a `Token`, used only inside
error message strings that no claim inspects (the two message texts the claims
do inspect, "unexpected end of input while parsing list" and
"invalid key value", are exact literals below). -/
def showToken : Token → String
  | .string s => "String(" ++ String.mk s ++ ")"
  | .number (.finite q) => "Number(" ++ q.num.repr ++ "/" ++ q.den.repr ++ ")"
  | .number .inf => "Number(inf)"
  | .number .neginf => "Number(-inf)"
  | .bool b => "Bool(" ++ toString b ++ ")"
  | .null => "Null"
  | .punct c => "Punct(" ++ String.mk ['\'', c, '\''] ++ ")"

/-- Approximation of Rust's `Debug` rendering of an `Option<&Token>`. -/
def showOptToken : Option Token → String
  | none => "None"
  | some t => "Some(" ++ showToken t ++ ")"

/-- Observable behaviour of `HashMap::insert`: replace the value bound to the
key if present (last write wins), otherwise append the binding. -/
def insertAssoc (k : List Char) (v : Value) :
    List (List Char × Value) → List (List Char × Value)
  | [] => [(k, v)]
  | (k', v') :: rest =>
    if k' = k then (k, v) :: rest else (k', v') :: insertAssoc k v rest

mutual

/-- `Parser::parse_value` (src/src/parser.rs), with fuel: match on
`tokens.next()`; the four scalar tokens map directly, `[` enters the list
loop, `{` enters the object loop, anything else (including end of tokens) is
the "unexpected token" parse error. -/
def parseValueF : Nat → List Token → Except PError (Value × List Token)
  | 0, _ => .error .outOfFuel
  | _ + 1, [] => .error (.parseError ("unexpected token '" ++ showOptToken none ++ "'"))
  | fuel + 1, t :: rest =>
    match t with
    | .null => .ok (.null, rest)
    | .bool b => .ok (.boolean b, rest)
    | .number n => .ok (.number n, rest)
    | .string s => .ok (.string s, rest)
    | .punct '[' =>
      match parseListLoopF fuel rest [] with
      | .error e => .error e
      | .ok (l, r) => .ok (.list l, r)
    | .punct '{' =>
      match parseObjLoopF fuel rest [] with
      | .error e => .error e
      | .ok (hm, r) => .ok (.object hm, r)
    | other => .error (.parseError ("unexpected token '" ++ showOptToken (some other) ++ "'"))

/-- The `loop` of the `Punct('[')` arm of `parse_value`: close on `]`,
otherwise parse an element, then consume `,` and continue, or consume `]` and
close, or — on any other lookahead — take no action and re-check on the next
iteration; end of tokens after an element is the hard list error. -/
def parseListLoopF : Nat → List Token → List Value → Except PError (List Value × List Token)
  | 0, _, _ => .error .outOfFuel
  | fuel + 1, ts, acc =>
    if ts.head? = some (.punct ']') then .ok (acc, ts.tail)
    else
      match parseValueF fuel ts with
      | .error e => .error e
      | .ok (v, r1) =>
        match r1.head? with
        | none => .error (.parseError "unexpected end of input while parsing list")
        | some t =>
          if t = .punct ',' then parseListLoopF fuel r1.tail (acc ++ [v])
          else if t = .punct ']' then .ok (acc ++ [v], r1.tail)
          else parseListLoopF fuel r1 (acc ++ [v])

/-- The `loop` of the `Punct('{')` arm of `parse_value`: close on `}`,
otherwise parse a key (which must come back as a `Value::String`, else
"invalid key value"), require `:`, parse the value, insert it (last write
wins), then consume `,` and continue, or consume `}` and close, or take no
action on any other lookahead; end of tokens after a member reuses the LIST
error text, exactly as the source does. -/
def parseObjLoopF : Nat → List Token → List (List Char × Value) →
    Except PError (List (List Char × Value) × List Token)
  | 0, _, _ => .error .outOfFuel
  | fuel + 1, ts, hm =>
    if ts.head? = some (.punct '}') then .ok (hm, ts.tail)
    else
      match parseValueF fuel ts with
      | .error e => .error e
      | .ok (kv, r1) =>
        match kv with
        | .string k =>
          if r1.head? = some (.punct ':') then
            match parseValueF fuel r1.tail with
            | .error e => .error e
            | .ok (v, r3) =>
              let hm' := insertAssoc k v hm
              match r3.head? with
              | none => .error (.parseError "unexpected end of input while parsing list")
              | some t =>
                if t = .punct ',' then parseObjLoopF fuel r3.tail hm'
                else if t = .punct '}' then .ok (hm', r3.tail)
                else parseObjLoopF fuel r3 hm'
          else
            .error (.parseError ("expected ':', got '" ++ showOptToken r1.head? ++ "'"))
        | _ => .error (.parseError "invalid key value")

end

/-- Outcome of `Parser::parse`: a value, no value, an error, or a panic. -/
inductive ParseOutcome where
  | ok (v : Option Value)
  | error (e : PError)
  | fatal (c : Crash)

/-- `Parser::parse` (src/src/parser.rs): lex the whole input (a lexer error is
wrapped by the `From` impl, a panic propagates), return "no value" for an
empty token list, otherwise parse one value and ignore whatever tokens remain.
The fuel `2 * tokens.length + 2` dominates the measure `2·|tokens|` /
`2·|tokens| + 1` that strictly decreases along every call edge of the source's
recursion, so it is never exhausted. -/
def parse (input : List Char) : ParseOutcome :=
  match lex input with
  | .fatal c => .fatal c
  | .err e => .error (.lexError e)
  | .ok tokens =>
    if tokens.isEmpty then .ok none
    else
      match parseValueF (2 * tokens.length + 2) tokens with
      | .error e => .error e
      | .ok (v, _) => .ok (some v)

/-! Sanity evaluations of the model on the repository's own test inputs and
the inputs the spec discusses. -/

example : parseF64 ['1', '2', '3'] = some (.finite 123) := by with_unfolding_all rfl
example : parseF64 ['-', '2'] = some (.finite (-2)) := by with_unfolding_all rfl
example : parseF64 ['1', '.', '0', 'E', '+', '2'] = some (.finite 100) := by with_unfolding_all rfl
example : parseF64 ['1', 'e', '9', '9', '9'] = some .inf := by with_unfolding_all rfl
example : parseF64 ['-', '-', '1', '.', '.', '2', 'e'] = none := by decide

example : lex [] = .ok [] := by with_unfolding_all rfl
example : lex [' ', ' ', '\n'] = .ok [] := by with_unfolding_all rfl
example : lex ['n', 'u', 'l', 'l'] = .ok [.null] := by with_unfolding_all rfl
example : lex ['@'] = .err { text := ['@'], line := 2, col := 0 } := by with_unfolding_all rfl
example : lex ['1', 'e', '9', '9', '9'] = .ok [.number .inf] := by with_unfolding_all rfl
example : lex ['"', 'é', 'é', '"', 'x'] = .fatal .charBoundary := by with_unfolding_all rfl
example : lex ['t', 'r', 'u', 'e', ' ', 'f', 'a', 'l', 's', 'e']
    = .ok [.bool true, .bool false] := by with_unfolding_all rfl
example : lex ['"', 'a', '\\', '"', 'b', '"'] = .ok [.string ['a', '\\', '"', 'b']] := by
  with_unfolding_all rfl


/-! ## Helper lemmas -/

theorem utf8Size_of_ws {c : Char} (h : c ∈ WHITESPACE) : c.utf8Size = 1 := by
  simp only [WHITESPACE, List.mem_cons, List.not_mem_nil, or_false] at h
  rcases h with rfl | rfl | rfl | rfl <;> rfl

theorem byteLen_of_ws {cs : List Char} (h : ∀ c ∈ cs, c ∈ WHITESPACE) :
    byteLen cs = cs.length := by
  induction cs with
  | nil => rfl
  | cons c cs ih =>
    have hc := utf8Size_of_ws (h c (by simp))
    have := ih (fun d hd => h d (by simp [hd]))
    simp [byteLen, hc] at this ⊢
    omega

theorem eatWsLoop_all_ws {cs : List Char} (h : ∀ c ∈ cs, c ∈ WHITESPACE) :
    ∀ st acc, (eatWsLoop cs st acc).2.index = st.index + cs.length ∧
      (eatWsLoop cs st acc).1 = (acc || !cs.isEmpty) := by
  induction cs with
  | nil => intro st acc; simp [eatWsLoop]
  | cons c cs ih =>
    intro st acc
    have hc : WHITESPACE.contains c := by
      simpa using h c (by simp)
    have ihr := ih (fun d hd => h d (by simp [hd]))
    simp only [eatWsLoop, hc, if_true]
    by_cases hnl : c = '\n' <;>
      simp [hnl, (ihr _ true).1, (ihr _ true).2] <;> omega

/-! Step lemmas for one iteration of the scanning loop, one per branch of the
source's `while` body that the claims exercise. -/

theorem lexLoopF_done {fuel : Nat} {input : List Char} {st : Lexer} {tokens : List Token}
    (h : ¬ st.index < byteLen input) :
    lexLoopF (fuel + 1) input st tokens = .ok tokens := by
  rw [lexLoopF, if_neg h]

theorem lexLoopF_step_ws {fuel : Nat} {input : List Char} {st st1 : Lexer}
    {tokens : List Token} (hlt : st.index < byteLen input)
    (hws : eatWhitespace input st = .ok (true, st1)) :
    lexLoopF (fuel + 1) input st tokens = lexLoopF fuel input st1 tokens := by
  rw [lexLoopF, if_pos hlt, hws]
  rfl

theorem lexLoopF_step_number_crash {fuel : Nat} {input : List Char} {st st1 st2 : Lexer}
    {tokens : List Token} (hlt : st.index < byteLen input)
    (hws : eatWhitespace input st = .ok (false, st1))
    (hstr : lexString input st1 = .ok (none, st2))
    (hnum : lexNumber input st2 = .error .numberUnwrap) :
    lexLoopF (fuel + 1) input st tokens = .fatal .numberUnwrap := by
  rw [lexLoopF, if_pos hlt, hws]
  simp only [hstr, hnum]
  rfl

theorem lexLoopF_step_bool {fuel : Nat} {input : List Char} {st st1 st2 st3 st4 : Lexer}
    {tokens : List Token} {b : Bool} (hlt : st.index < byteLen input)
    (hws : eatWhitespace input st = .ok (false, st1))
    (hstr : lexString input st1 = .ok (none, st2))
    (hnum : lexNumber input st2 = .ok (none, st3))
    (hbool : lexBoolean input st3 = .ok (some b, st4)) :
    lexLoopF (fuel + 1) input st tokens = lexLoopF fuel input st4 (tokens ++ [.bool b]) := by
  rw [lexLoopF, if_pos hlt, hws]
  simp only [hstr, hnum, hbool]
  rfl

theorem lex_all_ws {cs : List Char} (h : ∀ c ∈ cs, c ∈ WHITESPACE) :
    lex cs = .ok [] := by
  cases cs with
  | nil => rfl
  | cons c cs' =>
    have hb : byteLen (c :: cs') = cs'.length + 1 := by
      simpa using byteLen_of_ws h
    obtain ⟨hidx, hbool⟩ := eatWsLoop_all_ws h (⟨0, 0, 0⟩ : Lexer) false
    have hidx' : (eatWsLoop (c :: cs') (⟨0, 0, 0⟩ : Lexer) false).2.index = cs'.length + 1 := by
      simpa using hidx
    have hsuf : eatWhitespace (c :: cs') ⟨0, 0, 0⟩
        = .ok (true, (eatWsLoop (c :: cs') (⟨0, 0, 0⟩ : Lexer) false).2) := by
      rw [eatWhitespace]
      show Except.ok (eatWsLoop (c :: cs') ⟨0, 0, 0⟩ false) = _
      rw [show eatWsLoop (c :: cs') (⟨0, 0, 0⟩ : Lexer) false
          = (true, (eatWsLoop (c :: cs') (⟨0, 0, 0⟩ : Lexer) false).2) from
        Prod.ext_iff.mpr ⟨by simpa using hbool, rfl⟩]
    unfold lex
    rw [hb, lexLoopF_step_ws (by simp [hb]) hsuf,
      lexLoopF_done (by rw [hidx', hb]; omega)]

/-! ## Claims -/

/-- C1: For every input string consisting only of whitespace characters
(space, tab, carriage return, newline), and for the empty string,
`Parser::parse` returns Ok with "no value" (`Ok(None)`); it never returns an
error (nor a panic) for such inputs. -/
theorem c1_whitespace_parses_to_none (cs : List Char) (h : ∀ c ∈ cs, c ∈ WHITESPACE) :
    parse cs = .ok none := by
  unfold parse
  rw [lex_all_ws h]
  rfl

/-- C1 witness: the whitespace input `" \n\t\r"` (and, via the same theorem
applied at `[]`, the empty input) parses to "no value". -/
theorem c1_witness : parse [' ', '\n', '\t', '\r'] = .ok none ∧ parse [] = .ok none :=
  ⟨c1_whitespace_parses_to_none [' ', '\n', '\t', '\r'] (by decide),
   c1_whitespace_parses_to_none [] (by decide)⟩

/-! Helper lemmas describing which matcher of the scan loop fires on a given
suffix head. -/

theorem utf8Size_t : Char.utf8Size 't' = 1 := rfl

theorem utf8Size_r : Char.utf8Size 'r' = 1 := rfl

theorem utf8Size_u : Char.utf8Size 'u' = 1 := rfl

theorem utf8Size_e : Char.utf8Size 'e' = 1 := rfl

theorem isNumChar_not_ws {c : Char} (h : isNumChar c = true) :
    WHITESPACE.contains c = false := by
  rcases Bool.eq_false_or_eq_true (WHITESPACE.contains c) with ht | hf
  · exfalso
    have hc : c ∈ WHITESPACE := by simpa using ht
    simp only [WHITESPACE, List.mem_cons, List.not_mem_nil, or_false] at hc
    rcases hc with rfl | rfl | rfl | rfl <;> exact absurd h (by decide)
  · exact hf

theorem isNumChar_ne_quote {c : Char} (h : isNumChar c = true) : ¬ c = '"' := by
  rintro rfl
  exact absurd h (by decide)

theorem eatWhitespace_not_ws {input : List Char} {st : Lexer} {c : Char} {cs : List Char}
    (h : suffixAt input st.index = some (c :: cs)) (hc : WHITESPACE.contains c = false) :
    eatWhitespace input st = .ok (false, st) := by
  rw [eatWhitespace, h]
  simp only [eatWsLoop, hc]
  rfl

theorem lexString_not_quote {input : List Char} {st : Lexer} {c : Char} {cs : List Char}
    (h : suffixAt input st.index = some (c :: cs)) (hc : ¬ c = '"') :
    lexString input st = .ok (none, st) := by
  rw [lexString, h]
  simp [hc]

theorem lexNumber_no_run {input : List Char} {st : Lexer} {cs : List Char}
    (h : suffixAt input st.index = some cs) (hrun : cs.takeWhile isNumChar = []) :
    lexNumber input st = .ok (none, st) := by
  rw [lexNumber, h]
  simp [hrun]

theorem lexNumber_bad_run {input : List Char} {st : Lexer} {cs : List Char}
    (h : suffixAt input st.index = some cs) (hne : cs.takeWhile isNumChar ≠ [])
    (hbad : parseF64 (cs.takeWhile isNumChar) = none) :
    lexNumber input st = .error .numberUnwrap := by
  obtain ⟨a, l, hal⟩ : ∃ a l, cs.takeWhile isNumChar = a :: l := by
    cases hx : cs.takeWhile isNumChar with
    | nil => exact absurd hx hne
    | cons a l => exact ⟨a, l, rfl⟩
  rw [hal] at hbad
  rw [lexNumber, h]
  simp [hal, hbad]

theorem lexBoolean_true_of_head {input : List Char} {st : Lexer} {cs' : List Char}
    (h : suffixAt input st.index = some ('t' :: 'r' :: 'u' :: 'e' :: cs')) :
    lexBoolean input st = .ok (some true, ⟨st.line, st.col + 4, st.index + 4⟩) := by
  rw [lexBoolean, h]
  have h4 : 4 ≤ byteLen ('t' :: 'r' :: 'u' :: 'e' :: cs') := by
    simp only [byteLen, List.map_cons, List.sum_cons, utf8Size_t, utf8Size_r, utf8Size_u,
      utf8Size_e]
    omega
  have htake : takeBytes ('t' :: 'r' :: 'u' :: 'e' :: cs') 4 = some ['t', 'r', 'u', 'e'] := by
    simp [takeBytes, utf8Size_t, utf8Size_r, utf8Size_u, utf8Size_e]
  simp [h4, htake]

/-- C2 evaluation: on the input `"@"` the lexer fails with the error whose
`text` is the offending line `"@"` and `col` is 0 as the claim says, but whose
`line` FIELD holds 2, not 0: the constructor at src/src/lexer.rs line 214
stores `(self.col + 1).to_string().len() + 1` (the Display margin width) into
`line` instead of `self.line`. -/
theorem c2_unrecognized_char_eval : lex ['@'] = .err { text := ['@'], line := 2, col := 0 } := by
  with_unfolding_all rfl

/-- C3 counterexample: the input `"1e999"` lexes successfully to a single
`Number` token holding positive INFINITY (Rust's `f64::from_str` maps decimal
values beyond the binary64 range to infinity rather than failing), refuting
"every Number token holds a finite IEEE-754 double (never infinity or NaN)". -/
theorem c3_counterexample :
    lex ['1', 'e', '9', '9', '9'] = .ok [.number .inf] ∧ ∀ q : ℚ, F64.inf ≠ F64.finite q :=
  ⟨by with_unfolding_all rfl, fun _ h => F64.noConfusion h⟩

/-- C3 (amended): every Number token holds the correctly-rounded double of its
text, which is never NaN but MAY be ±infinity on overflow (`"1e999"` lexes to
`Number(+inf)`); and whenever the maximal run of digits and `- + . e E` at the
cursor is non-empty but does not decode as a double, the lexer panics/aborts
(`Crash.numberUnwrap`, the `unwrap()` of `lex_number`) rather than returning a
`LexError`. -/
theorem c3_number_token_amended :
    lex ['1', 'e', '9', '9', '9'] = .ok [.number .inf] ∧
    ∀ fuel input st tokens cs, st.index < byteLen input →
      suffixAt input st.index = some cs →
      cs.takeWhile isNumChar ≠ [] →
      parseF64 (cs.takeWhile isNumChar) = none →
      lexLoopF (fuel + 1) input st tokens = .fatal .numberUnwrap := by
  refine ⟨by with_unfolding_all rfl, ?_⟩
  intro fuel input st tokens cs hlt hsuf hne hbad
  cases cs with
  | nil => simp at hne
  | cons c rest =>
    have hc : isNumChar c = true := by
      rcases Bool.eq_false_or_eq_true (isNumChar c) with ht | hf
      · exact ht
      · exfalso
        rw [List.takeWhile_cons_of_neg (by simp [hf])] at hne
        exact hne rfl
    exact lexLoopF_step_number_crash hlt
      (eatWhitespace_not_ws hsuf (isNumChar_not_ws hc))
      (lexString_not_quote hsuf (isNumChar_ne_quote hc))
      (lexNumber_bad_run hsuf hne hbad)

/-- C3 witness: the malformed numeric text `"--1..2e"` (a non-empty run of
number characters that `f64::from_str` rejects) makes the lexer panic. -/
theorem c3_witness : lex ['-', '-', '1', '.', '.', '2', 'e'] = .fatal .numberUnwrap :=
  c3_number_token_amended.2 7 ['-', '-', '1', '.', '.', '2', 'e'] ⟨0, 0, 0⟩ []
    ['-', '-', '1', '.', '.', '2', 'e'] (by decide) rfl (by decide) (by decide)

/-- C7: keyword matching is a raw prefix comparison with no word-boundary
check: whenever the suffix at the cursor starts with the four characters
`true`, one loop iteration emits `Bool(true)`, advances exactly 4 bytes and
continues lexing there; concretely, `"truex"` consumes `true`, then fails on
the leftover `x` at column 4 (showing lexing continued right after the
keyword). -/
theorem c7_keyword_no_boundary_check :
    (∀ fuel input st tokens cs', st.index < byteLen input →
      suffixAt input st.index = some ('t' :: 'r' :: 'u' :: 'e' :: cs') →
      lexLoopF (fuel + 1) input st tokens
        = lexLoopF fuel input ⟨st.line, st.col + 4, st.index + 4⟩ (tokens ++ [.bool true])) ∧
    lex ['t', 'r', 'u', 'e', 'x']
      = .err { text := ['t', 'r', 'u', 'e', 'x'], line := 2, col := 4 } ∧
    lex ['t', 'r', 'u', 'e', 'f', 'o', 'o']
      = .err { text := ['t', 'r', 'u', 'e', 'f', 'o', 'o'], line := 2, col := 4 } := by
  refine ⟨?_, by with_unfolding_all rfl, by with_unfolding_all rfl⟩
  intro fuel input st tokens cs' hlt hsuf
  exact lexLoopF_step_bool hlt
    (eatWhitespace_not_ws hsuf (by decide))
    (lexString_not_quote hsuf (by decide))
    (lexNumber_no_run hsuf (List.takeWhile_cons_of_neg (by decide)))
    (lexBoolean_true_of_head hsuf)

/-- C7 witness: one scan step on `"truex"` emits `Bool(true)` and continues at
byte offset 4 (the leftover `x`). -/
theorem c7_witness :
    lexLoopF 6 ['t', 'r', 'u', 'e', 'x'] ⟨0, 0, 0⟩ []
      = lexLoopF 5 ['t', 'r', 'u', 'e', 'x'] ⟨0, 4, 4⟩ [.bool true] :=
  c7_keyword_no_boundary_check.1 5 ['t', 'r', 'u', 'e', 'x'] ⟨0, 0, 0⟩ [] ['x']
    (by decide) rfl

/-- C8: inside string lexing a backslash escapes exactly the next character
and BOTH characters are copied verbatim into the token content (two scan steps
append them and clear the escape flag, and in particular an escaped quote does
not terminate the string); concretely the six-character input `"a\"b"`
(quote, a, backslash, quote, b, quote) lexes to the single String token
`a\"b`. -/
theorem c8_backslash_escapes_verbatim :
    (∀ cs s st c, lexStrLoop ('\\' :: c :: cs) s false st
      = lexStrLoop cs (s ++ ['\\', c]) false ⟨st.line, st.col + 2, st.index + 2⟩) ∧
    lex ['"', 'a', '\\', '"', 'b', '"'] = .ok [.string ['a', '\\', '"', 'b']] := by
  refine ⟨?_, by with_unfolding_all rfl⟩
  intro cs s st c
  have e1 : st.col + 1 + 1 = st.col + 2 := by omega
  have e2 : st.index + 1 + 1 = st.index + 2 := by omega
  simp [lexStrLoop, e1, e2]

/-- C10: `Lexer::lex` is not total over UTF-8 inputs: `lex_string` advances
the byte cursor by one per CHARACTER, so after the two-byte characters in
`"éé"` the cursor lands mid-character and the next slice panics — on the input
`"éé"x` (a quoted string of two 2-byte characters followed by more text) `lex`
crashes on a character-boundary violation instead of returning Ok or Err. -/
theorem c10_multibyte_string_panics :
    lex ['"', 'é', 'é', '"', 'x'] = .fatal .charBoundary := by
  with_unfolding_all rfl

/-! Parser loop step lemmas, one per loop-branch the claims exercise. -/

theorem parseListLoopF_eof {fuel : Nat} {ts : List Token} {acc : List Value} {v : Value}
    (hne : ts.head? ≠ some (Token.punct ']'))
    (hpv : parseValueF fuel ts = .ok (v, [])) :
    parseListLoopF (fuel + 1) ts acc
      = .error (.parseError "unexpected end of input while parsing list") := by
  rw [parseListLoopF, if_neg hne, hpv]
  rfl

theorem parseObjLoopF_eof {fuel : Nat} {ts : List Token} {hm : List (List Char × Value)}
    {k : List Char} {v : Value} {r1 : List Token}
    (hne : ts.head? ≠ some (Token.punct '}'))
    (hk : parseValueF fuel ts = .ok (.string k, r1))
    (hcolon : r1.head? = some (.punct ':'))
    (hv : parseValueF fuel r1.tail = .ok (v, [])) :
    parseObjLoopF (fuel + 1) ts hm
      = .error (.parseError "unexpected end of input while parsing list") := by
  rw [parseObjLoopF, if_neg hne, hk]
  simp [hcolon, hv]

theorem parseListLoopF_skip {fuel : Nat} {ts : List Token} {acc : List Value} {v : Value}
    {r1 : List Token} {t : Token}
    (hne : ts.head? ≠ some (Token.punct ']'))
    (hpv : parseValueF fuel ts = .ok (v, r1))
    (ht : r1.head? = some t) (hc : t ≠ .punct ',') (hb : t ≠ .punct ']') :
    parseListLoopF (fuel + 1) ts acc = parseListLoopF fuel r1 (acc ++ [v]) := by
  rw [parseListLoopF, if_neg hne, hpv]
  simp [ht, hc, hb]

theorem parseObjLoopF_skip {fuel : Nat} {ts : List Token} {hm : List (List Char × Value)}
    {k : List Char} {v : Value} {r1 r3 : List Token} {t : Token}
    (hne : ts.head? ≠ some (Token.punct '}'))
    (hk : parseValueF fuel ts = .ok (.string k, r1))
    (hcolon : r1.head? = some (.punct ':'))
    (hv : parseValueF fuel r1.tail = .ok (v, r3))
    (ht : r3.head? = some t) (hc : t ≠ .punct ',') (hb : t ≠ .punct '}') :
    parseObjLoopF (fuel + 1) ts hm = parseObjLoopF fuel r3 (insertAssoc k v hm) := by
  rw [parseObjLoopF, if_neg hne, hk]
  simp [hcolon, hv, ht, hc, hb]

/-- C4: whenever the token cursor inside list parsing reaches end-of-tokens
right after an element (the element parse consumed everything and no `]` was
seen), the result is the parse error "unexpected end of input while parsing
list"; and the object loop in the same situation (after a complete
key-colon-value member) produces an error with that SAME list message text;
concretely `parse "[1,2"` fails with exactly that message. -/
theorem c4_eof_uses_list_error_text :
    (∀ fuel (ts : List Token) acc v, ts.head? ≠ some (.punct ']') →
      parseValueF fuel ts = .ok (v, []) →
      parseListLoopF (fuel + 1) ts acc
        = .error (.parseError "unexpected end of input while parsing list")) ∧
    (∀ fuel (ts : List Token) hm k v r1, ts.head? ≠ some (.punct '}') →
      parseValueF fuel ts = .ok (.string k, r1) →
      r1.head? = some (.punct ':') →
      parseValueF fuel r1.tail = .ok (v, []) →
      parseObjLoopF (fuel + 1) ts hm
        = .error (.parseError "unexpected end of input while parsing list")) ∧
    parse ['[', '1', ',', '2']
      = .error (.parseError "unexpected end of input while parsing list") := by
  refine ⟨?_, ?_, by with_unfolding_all rfl⟩
  · intro fuel ts acc v hne hpv
    exact parseListLoopF_eof hne hpv
  · intro fuel ts hm k v r1 hne hk hcolon hv
    exact parseObjLoopF_eof hne hk hcolon hv

/-- C4 witness: a list body `1<end>` and an object body `"a":1<end>` both
produce the (list) end-of-input error. -/
theorem c4_witness :
    parseListLoopF 2 [.number (.finite 1)] []
      = .error (.parseError "unexpected end of input while parsing list") ∧
    parseObjLoopF 2 [.string ['a'], .punct ':', .number (.finite 1)] []
      = .error (.parseError "unexpected end of input while parsing list") :=
  ⟨c4_eof_uses_list_error_text.1 1 [.number (.finite 1)] [] (.number (.finite 1))
      (by decide) rfl,
   c4_eof_uses_list_error_text.2.1 1 [.string ['a'], .punct ':', .number (.finite 1)] []
      ['a'] (.number (.finite 1)) [.punct ':', .number (.finite 1)]
      (by decide) rfl rfl rfl⟩

/-- C5: whenever the input lexes to a non-empty token sequence whose prefix
parses as one complete value, `Parser::parse` returns `Ok(Some(value))`, no
matter what tokens remain after the value — they are silently ignored. -/
theorem c5_trailing_tokens_ignored (input : List Char) (ts : List Token) (v : Value)
    (rest : List Token) (hlex : lex input = .ok ts) (hne : ts.isEmpty = false)
    (hpv : parseValueF (2 * ts.length + 2) ts = .ok (v, rest)) :
    parse input = .ok (some v) := by
  unfold parse
  rw [hlex]
  simp [hne, hpv]

/-- C5 witness: `"true false"` parses to `Boolean(true)`, the trailing
`false` token being ignored. -/
theorem c5_witness : parse ['t', 'r', 'u', 'e', ' ', 'f', 'a', 'l', 's', 'e']
    = .ok (some (.boolean true)) :=
  c5_trailing_tokens_ignored ['t', 'r', 'u', 'e', ' ', 'f', 'a', 'l', 's', 'e']
    [.bool true, .bool false] (.boolean true) [.bool false]
    (by with_unfolding_all rfl) rfl rfl

/-- C6: a missing comma between two elements is not rejected at the separator
position: in both the list and the object loop, when the lookahead after an
element is neither `,` nor the closer, the iteration takes no action and
re-checks on the next iteration; concretely `"[1 2]"` parses successfully to
`List([Number(1.0), Number(2.0)])`. -/
theorem c6_missing_comma_not_rejected :
    (∀ fuel (ts : List Token) acc v r1 t, ts.head? ≠ some (.punct ']') →
      parseValueF fuel ts = .ok (v, r1) →
      r1.head? = some t → t ≠ .punct ',' → t ≠ .punct ']' →
      parseListLoopF (fuel + 1) ts acc = parseListLoopF fuel r1 (acc ++ [v])) ∧
    (∀ fuel (ts : List Token) hm k v r1 r3 t, ts.head? ≠ some (.punct '}') →
      parseValueF fuel ts = .ok (.string k, r1) →
      r1.head? = some (.punct ':') →
      parseValueF fuel r1.tail = .ok (v, r3) →
      r3.head? = some t → t ≠ .punct ',' → t ≠ .punct '}' →
      parseObjLoopF (fuel + 1) ts hm = parseObjLoopF fuel r3 (insertAssoc k v hm)) ∧
    parse ['[', '1', ' ', '2', ']']
      = .ok (some (.list [.number (.finite 1), .number (.finite 2)])) := by
  refine ⟨?_, ?_, by with_unfolding_all rfl⟩
  · intro fuel ts acc v r1 t hne hpv ht hc hb
    exact parseListLoopF_skip hne hpv ht hc hb
  · intro fuel ts hm k v r1 r3 t hne hk hcolon hv ht hc hb
    exact parseObjLoopF_skip hne hk hcolon hv ht hc hb

/-- C6 witness: on the token form of `[1 2]`, the iteration after the element
`1` sees the non-comma, non-bracket lookahead `2`, takes no action, and
re-enters the loop at that token. -/
theorem c6_witness :
    parseListLoopF 3 [.number (.finite 1), .number (.finite 2), .punct ']'] []
      = parseListLoopF 2 [.number (.finite 2), .punct ']'] [.number (.finite 1)] :=
  c6_missing_comma_not_rejected.1 2
    [.number (.finite 1), .number (.finite 2), .punct ']'] [] (.number (.finite 1))
    [.number (.finite 2), .punct ']'] (.number (.finite 2))
    (by decide) rfl rfl (by decide) (by decide)

/-- C9: duplicate object keys are not detected and the last write wins:
`{"a": 1, "a": 2}` parses successfully and the mapping binds `a` to
`Number(2.0)`; and in general the binding inserted last by `insertAssoc` (the
model of `HashMap::insert`) is the one `lookup` returns. -/
theorem c9_duplicate_keys_last_write_wins :
    parse ['{', '"', 'a', '"', ':', '1', ',', '"', 'a', '"', ':', '2', '}']
      = .ok (some (.object [(['a'], .number (.finite 2))])) ∧
    ∀ (l : List (List Char × Value)) k v, (insertAssoc k v l).lookup k = some v := by
  refine ⟨by with_unfolding_all rfl, ?_⟩
  intro l k v
  induction l with
  | nil => simp [insertAssoc, List.lookup]
  | cons p rest ih =>
    obtain ⟨k', v'⟩ := p
    by_cases hk : k' = k
    · subst hk
      simp [insertAssoc, List.lookup]
    · have hbeq : (k == k') = false := by
        simp [Ne.symm hk]
      simp [insertAssoc, hk, List.lookup, hbeq, ih]


theorem powAux_eq : ∀ (fuel b e : Nat), e ≤ fuel → powAux fuel b e = b ^ e := by
  intro fuel
  induction fuel with
  | zero =>
    intro b e he
    interval_cases e
    rfl
  | succ fuel ih =>
    intro b e he
    rw [powAux]
    by_cases he0 : e = 0
    · simp [he0]
    · have hdiv : e / 2 ≤ fuel := by omega
      have hsplit : e = 2 * (e / 2) + e % 2 := (Nat.div_add_mod e 2).symm.trans (by ring)
      by_cases hodd : e % 2 = 1
      · rw [if_neg he0, if_pos hodd, ih (b * b) (e / 2) hdiv]
        have : b * b = b ^ 2 := by ring
        rw [this, ← pow_mul]
        conv_rhs => rw [hsplit, hodd]
        rw [pow_add, pow_one]
        ring
      · have heven : e % 2 = 0 := by omega
        rw [if_neg he0, if_neg (by omega), ih (b * b) (e / 2) hdiv]
        have : b * b = b ^ 2 := by ring
        rw [this, ← pow_mul]
        conv_rhs => rw [hsplit, heven]
        ring_nf

/-- The fueled exponentiation agrees with `Nat.pow`. -/
theorem powNat_eq_pow (b e : Nat) : powNat b e = b ^ e :=
  powAux_eq e b e le_rfl

theorem natLog2Aux_eq : ∀ (fuel n : Nat), n ≤ fuel → natLog2Aux fuel n = Nat.log2 n := by
  intro fuel
  induction fuel with
  | zero =>
    intro n hn
    interval_cases n
    simp [natLog2Aux, Nat.log2]
  | succ fuel ih =>
    intro n hn
    rw [natLog2Aux, Nat.log2]
    by_cases h1 : n ≤ 1
    · rw [if_pos h1, if_neg (by omega)]
    · rw [if_neg h1, if_pos (by omega), ih (n / 2) (by omega)]
      omega

/-- The fueled base-2 logarithm agrees with `Nat.log2`. -/
theorem natLog2_eq_log2 (n : Nat) : natLog2 n = Nat.log2 n :=
  natLog2Aux_eq n n le_rfl

/-! ## Adequacy of the fuel encoding

The fuel arguments are an artefact of the shallow embedding; the following
theorems show the fuel supplied by `lex` and `parse` is never exhausted, so
the model computes exactly what the (fuel-free) source computes. -/

/-- The recursive descent consumes at least one token per completed value (and
per completed list/object body), mirroring the fact that `parse_value` begins
with `tokens.next()`. -/
theorem parse_consumption : ∀ fuel : Nat,
    (∀ ts v rest, parseValueF fuel ts = .ok (v, rest) → rest.length < ts.length) ∧
    (∀ ts acc l rest, parseListLoopF fuel ts acc = .ok (l, rest) → rest.length < ts.length) ∧
    (∀ ts hm l rest, parseObjLoopF fuel ts hm = .ok (l, rest) → rest.length < ts.length) := by
  intro fuel
  induction fuel with
  | zero =>
    refine ⟨?_, ?_, ?_⟩
    · intro ts v rest h; simp [parseValueF] at h
    · intro ts acc l rest h; simp [parseListLoopF] at h
    · intro ts hm l rest h; simp [parseObjLoopF] at h
  | succ fuel ih =>
    obtain ⟨ihv, ihl, iho⟩ := ih
    refine ⟨?_, ?_, ?_⟩
    · intro ts v rest h
      cases ts with
      | nil => simp [parseValueF] at h
      | cons t ts' =>
        simp only [parseValueF] at h
        split at h <;> try (simp at h; obtain ⟨-, rfl⟩ := h; simp)
        · -- Punct '[' arm
          split at h
          · simp at h
          · rename_i l r hx
            simp at h
            obtain ⟨-, rfl⟩ := h
            exact Nat.lt_succ_of_lt (ihl _ _ _ _ hx)
        · -- Punct '{' arm
          split at h
          · simp at h
          · rename_i hm r hx
            simp at h
            obtain ⟨-, rfl⟩ := h
            exact Nat.lt_succ_of_lt (iho _ _ _ _ hx)
        · -- catch-all arm
          simp at h
    · intro ts acc l rest h
      simp only [parseListLoopF] at h
      split at h
      · -- immediate ']'
        rename_i hcl
        simp at h
        obtain ⟨-, rfl⟩ := h
        cases ts with
        | nil => simp at hcl
        | cons a ts' => simp
      · -- element parsed
        rename_i hcl
        split at h
        · simp at h
        · rename_i v r1 hpv
          have hr1 := ihv _ _ _ hpv
          split at h
          · simp at h
          · rename_i t ht
            have hr1ne : r1 ≠ [] := by
              intro hnil; rw [hnil] at ht; simp at ht
            split at h
            · -- comma: recurse on r1.tail
              have := ihl _ _ _ _ h
              have : rest.length < r1.tail.length := this
              have htl : r1.tail.length = r1.length - 1 := by simp [List.length_tail]
              omega
            · split at h
              · -- closing ']'
                simp at h
                obtain ⟨-, rfl⟩ := h
                have htl : r1.tail.length = r1.length - 1 := by simp [List.length_tail]
                have : 0 < r1.length := List.length_pos.mpr hr1ne
                omega
              · -- skip: recurse on r1
                have := ihl _ _ _ _ h
                omega
    · intro ts hm l rest h
      simp only [parseObjLoopF] at h
      split at h
      · rename_i hcl
        simp at h
        obtain ⟨-, rfl⟩ := h
        cases ts with
        | nil => simp at hcl
        | cons a ts' => simp
      · rename_i hcl
        split at h
        · simp at h
        · rename_i kv r1 hpv
          have hr1 := ihv _ _ _ hpv
          split at h
          · rename_i k
            split at h
            · rename_i hcolon
              split at h
              · simp at h
              · rename_i v r3 hv
                have hr3 := ihv _ _ _ hv
                have htl : r1.tail.length = r1.length - 1 := by simp [List.length_tail]
                split at h
                · simp at h
                · rename_i t ht
                  have hr3ne : r3 ≠ [] := by
                    intro hnil; rw [hnil] at ht; simp at ht
                  have h3tl : r3.tail.length = r3.length - 1 := by simp [List.length_tail]
                  have h3pos : 0 < r3.length := List.length_pos.mpr hr3ne
                  split at h
                  · have := iho _ _ _ _ h
                    omega
                  · split at h
                    · simp at h
                      obtain ⟨-, rfl⟩ := h
                      omega
                    · have := iho _ _ _ _ h
                      omega
            · simp at h
          · simp at h

/-- With fuel exceeding twice the token count, the recursive descent never
exhausts its fuel: the `outOfFuel` artefact of the embedding is unreachable
for the fuel that `parse` supplies. -/
theorem parse_fuel_sufficient : ∀ fuel : Nat,
    (∀ ts, 2 * ts.length < fuel → parseValueF fuel ts ≠ .error .outOfFuel) ∧
    (∀ ts acc, 2 * ts.length + 1 < fuel → parseListLoopF fuel ts acc ≠ .error .outOfFuel) ∧
    (∀ ts hm, 2 * ts.length + 1 < fuel → parseObjLoopF fuel ts hm ≠ .error .outOfFuel) := by
  intro fuel
  induction fuel with
  | zero =>
    refine ⟨?_, ?_, ?_⟩
    · intro ts hb; omega
    · intro ts acc hb; omega
    · intro ts hm hb; omega
  | succ fuel ih =>
    obtain ⟨ihv, ihl, iho⟩ := ih
    refine ⟨?_, ?_, ?_⟩
    · intro ts hb
      cases ts with
      | nil => simp [parseValueF]
      | cons t ts' =>
        simp only [parseValueF, List.length_cons] at hb ⊢
        split <;> try simp
        · -- Punct '[' arm
          split
          · rename_i e hx
            intro hcontra
            injection hcontra with he
            subst he
            exact ihl ts' [] (by omega) hx
          · simp
        · -- Punct '{' arm
          split
          · rename_i e hx
            intro hcontra
            injection hcontra with he
            subst he
            exact iho ts' [] (by omega) hx
          · simp
    · intro ts acc hb
      simp only [parseListLoopF]
      split
      · simp
      · split
        · rename_i e hx
          intro hcontra
          injection hcontra with he
          subst he
          exact ihv ts (by omega) hx
        · rename_i v r1 hpv
          have hr1 := (parse_consumption fuel).1 _ _ _ hpv
          split
          · simp
          · rename_i t ht
            have hr1ne : r1 ≠ [] := by
              intro hnil; rw [hnil] at ht; simp at ht
            have hpos : 0 < r1.length := List.length_pos.mpr hr1ne
            have htl : r1.tail.length = r1.length - 1 := by simp [List.length_tail]
            split
            · exact ihl r1.tail (acc ++ [v]) (by omega)
            · split
              · simp
              · exact ihl r1 (acc ++ [v]) (by omega)
    · intro ts hm hb
      simp only [parseObjLoopF]
      split
      · simp
      · split
        · rename_i e hx
          intro hcontra
          injection hcontra with he
          subst he
          exact ihv ts (by omega) hx
        · rename_i kv r1 hpv
          have hr1 := (parse_consumption fuel).1 _ _ _ hpv
          split
          · rename_i k
            split
            · rename_i hcolon
              have htl : r1.tail.length = r1.length - 1 := by simp [List.length_tail]
              split
              · rename_i e hx
                intro hcontra
                injection hcontra with he
                subst he
                exact ihv r1.tail (by omega) hx
              · rename_i v r3 hv
                have hr3 := (parse_consumption fuel).1 _ _ _ hv
                split
                · simp
                · rename_i t ht
                  have hr3ne : r3 ≠ [] := by
                    intro hnil; rw [hnil] at ht; simp at ht
                  have h3pos : 0 < r3.length := List.length_pos.mpr hr3ne
                  have h3tl : r3.tail.length = r3.length - 1 := by simp [List.length_tail]
                  split
                  · exact iho r3.tail _ (by omega)
                  · split
                    · simp
                    · exact iho r3 _ (by omega)
            · simp
          · simp

theorem eatWsLoop_index_mono : ∀ (cs : List Char) (st : Lexer) (acc : Bool),
    st.index ≤ (eatWsLoop cs st acc).2.index := by
  intro cs
  induction cs with
  | nil => intro st acc; simp [eatWsLoop]
  | cons c cs ih =>
    intro st acc
    simp only [eatWsLoop]
    split
    · split
      · have := ih { line := st.line + 1, col := 0, index := st.index + 1 } true
        simp at this
        omega
      · have := ih { line := st.line, col := st.col + 1, index := st.index + 1 } true
        simp at this
        omega
    · simp

theorem eatWsLoop_acc_true : ∀ (cs : List Char) (st : Lexer),
    (eatWsLoop cs st true).1 = true := by
  intro cs
  induction cs with
  | nil => intro st; simp [eatWsLoop]
  | cons c cs ih =>
    intro st
    simp only [eatWsLoop]
    split
    · split <;> exact ih _
    · rfl

theorem eatWsLoop_false_progress : ∀ (cs : List Char) (st : Lexer),
    (eatWsLoop cs st false).1 = true → st.index < (eatWsLoop cs st false).2.index := by
  intro cs st
  cases cs with
  | nil => simp [eatWsLoop]
  | cons c cs' =>
    simp only [eatWsLoop]
    split
    · intro _
      split
      · refine lt_of_lt_of_le ?_ (eatWsLoop_index_mono cs' _ true)
        simp
      · refine lt_of_lt_of_le ?_ (eatWsLoop_index_mono cs' _ true)
        simp
    · simp

theorem eatWsLoop_false_id : ∀ (cs : List Char) (st : Lexer),
    (eatWsLoop cs st false).1 = false → (eatWsLoop cs st false).2 = st := by
  intro cs st
  cases cs with
  | nil => intro _; rfl
  | cons c cs' =>
    simp only [eatWsLoop]
    split
    · split <;> (rw [eatWsLoop_acc_true]; intro h; exact absurd h (by simp))
    · intro _; rfl

theorem eatWhitespace_true_progress {input : List Char} {st st1 : Lexer}
    (h : eatWhitespace input st = .ok (true, st1)) : st.index < st1.index := by
  rw [eatWhitespace] at h
  split at h
  · exact absurd h (by simp)
  · rename_i cs hsuf
    injection h with h1
    have h1' : (eatWsLoop cs st false).1 = true := by rw [h1]
    have h2' : (eatWsLoop cs st false).2 = st1 := by rw [h1]
    rw [← h2']
    exact eatWsLoop_false_progress cs st h1'

theorem eatWhitespace_false_eq {input : List Char} {st st1 : Lexer}
    (h : eatWhitespace input st = .ok (false, st1)) : st1 = st := by
  rw [eatWhitespace] at h
  split at h
  · exact absurd h (by simp)
  · rename_i cs hsuf
    injection h with h1
    have h1' : (eatWsLoop cs st false).1 = false := by rw [h1]
    have h2' : (eatWsLoop cs st false).2 = st1 := by rw [h1]
    rw [← h2']
    exact eatWsLoop_false_id cs st h1'

theorem lexStrLoop_index_mono : ∀ (cs s : List Char) (esc : Bool) (st : Lexer),
    st.index ≤ (lexStrLoop cs s esc st).2.index := by
  intro cs
  induction cs with
  | nil => intro s esc st; simp [lexStrLoop]
  | cons c cs ih =>
    intro s esc st
    simp only [lexStrLoop]
    split
    · exact le_trans (by simp) (ih _ _ _)
    · split
      · exact le_trans (by simp) (ih _ _ _)
      · split
        · simp
        · exact le_trans (by simp) (ih _ _ _)

theorem lexString_some_progress {input : List Char} {st st2 : Lexer} {s : List Char}
    (h : lexString input st = .ok (some s, st2)) : st.index < st2.index := by
  rw [lexString] at h
  split at h
  · exact absurd h (by simp)
  · rename_i cs hsuf
    split at h
    · rename_i c rest
      split at h
      · injection h with h1
        injection h1 with hs hst
        rw [← hst]
        refine lt_of_lt_of_le ?_ (lexStrLoop_index_mono rest [] false _)
        simp
      · exact absurd h (by simp)
    · exact absurd h (by simp)

theorem lexString_none_eq {input : List Char} {st st2 : Lexer}
    (h : lexString input st = .ok (none, st2)) : st2 = st := by
  rw [lexString] at h
  split at h
  · exact absurd h (by simp)
  · split at h
    · split at h
      · exact absurd h (by simp)
      · injection h with h1
        injection h1 with hs hst
        exact hst.symm
    · injection h with h1
      injection h1 with hs hst
      exact hst.symm

theorem lexNumber_some_progress {input : List Char} {st st3 : Lexer} {n : F64}
    (h : lexNumber input st = .ok (some n, st3)) : st.index < st3.index := by
  rw [lexNumber] at h
  split at h
  · exact absurd h (by simp)
  · rename_i cs hsuf
    dsimp only at h
    split at h
    · exact absurd h (by simp)
    · rename_i hne
      split at h
      · injection h with h1
        injection h1 with hn hst
        rw [← hst]
        simp only
        have : (cs.takeWhile isNumChar).length ≠ 0 := by
          simpa [List.isEmpty_iff, List.length_eq_zero] using hne
        omega
      · exact absurd h (by simp)

theorem lexNumber_none_eq {input : List Char} {st st3 : Lexer}
    (h : lexNumber input st = .ok (none, st3)) : st3 = st := by
  rw [lexNumber] at h
  split at h
  · exact absurd h (by simp)
  · dsimp only at h
    split at h
    · injection h with h1
      injection h1 with hn hst
      exact hst.symm
    · split at h
      · exact absurd h (by simp)
      · exact absurd h (by simp)

theorem lexBooleanFalse_some_progress {cs : List Char} {st st4 : Lexer} {b : Bool}
    (h : lexBooleanFalse cs st = .ok (some b, st4)) : st.index < st4.index := by
  rw [lexBooleanFalse] at h
  split at h
  · split at h
    · exact absurd h (by simp)
    · split at h
      · injection h with h1
        injection h1 with hb hst
        rw [← hst]
        simp
      · exact absurd h (by simp)
  · exact absurd h (by simp)

theorem lexBooleanFalse_none_eq {cs : List Char} {st st4 : Lexer}
    (h : lexBooleanFalse cs st = .ok (none, st4)) : st4 = st := by
  rw [lexBooleanFalse] at h
  split at h
  · split at h
    · exact absurd h (by simp)
    · split at h
      · exact absurd h (by simp)
      · injection h with h1
        injection h1 with hb hst
        exact hst.symm
  · injection h with h1
    injection h1 with hb hst
    exact hst.symm

theorem lexBoolean_some_progress {input : List Char} {st st4 : Lexer} {b : Bool}
    (h : lexBoolean input st = .ok (some b, st4)) : st.index < st4.index := by
  rw [lexBoolean] at h
  split at h
  · exact absurd h (by simp)
  · split at h
    · split at h
      · exact absurd h (by simp)
      · split at h
        · injection h with h1
          injection h1 with hb hst
          rw [← hst]
          simp
        · exact lexBooleanFalse_some_progress h
    · exact lexBooleanFalse_some_progress h

theorem lexBoolean_none_eq {input : List Char} {st st4 : Lexer}
    (h : lexBoolean input st = .ok (none, st4)) : st4 = st := by
  rw [lexBoolean] at h
  split at h
  · exact absurd h (by simp)
  · split at h
    · split at h
      · exact absurd h (by simp)
      · split at h
        · exact absurd h (by simp)
        · exact lexBooleanFalse_none_eq h
    · exact lexBooleanFalse_none_eq h

theorem lexNull_true_progress {input : List Char} {st st5 : Lexer}
    (h : lexNull input st = .ok (true, st5)) : st.index < st5.index := by
  rw [lexNull] at h
  split at h
  · exact absurd h (by simp)
  · split at h
    · split at h
      · exact absurd h (by simp)
      · split at h
        · injection h with h1
          injection h1 with hb hst
          rw [← hst]
          simp
        · injection h with h1
          injection h1 with hb _
          exact absurd hb.symm (by simp)
    · injection h with h1
      injection h1 with hb _
      exact absurd hb.symm (by simp)

theorem lexNull_false_eq {input : List Char} {st st5 : Lexer}
    (h : lexNull input st = .ok (false, st5)) : st5 = st := by
  rw [lexNull] at h
  split at h
  · exact absurd h (by simp)
  · split at h
    · split at h
      · exact absurd h (by simp)
      · split at h
        · exact absurd h (by simp)
        · injection h with h1
          injection h1 with hb hst
          exact hst.symm
    · injection h with h1
      injection h1 with hb hst
      exact hst.symm

theorem eatWhitespace_error_ne_fuel {input : List Char} {st : Lexer} {c : Crash}
    (h : eatWhitespace input st = .error c) : c ≠ .outOfFuel := by
  rw [eatWhitespace] at h
  split at h
  · injection h with h1
    rw [← h1]
    simp
  · exact absurd h (by simp)

theorem lexString_error_ne_fuel {input : List Char} {st : Lexer} {c : Crash}
    (h : lexString input st = .error c) : c ≠ .outOfFuel := by
  rw [lexString] at h
  split at h
  · injection h with h1
    rw [← h1]
    simp
  · split at h
    · split at h <;> exact absurd h (by simp)
    · exact absurd h (by simp)

theorem lexNumber_error_ne_fuel {input : List Char} {st : Lexer} {c : Crash}
    (h : lexNumber input st = .error c) : c ≠ .outOfFuel := by
  rw [lexNumber] at h
  split at h
  · injection h with h1
    rw [← h1]
    simp
  · dsimp only at h
    split at h
    · exact absurd h (by simp)
    · split at h
      · exact absurd h (by simp)
      · injection h with h1
        rw [← h1]
        simp

theorem lexBooleanFalse_error_ne_fuel {cs : List Char} {st : Lexer} {c : Crash}
    (h : lexBooleanFalse cs st = .error c) : c ≠ .outOfFuel := by
  rw [lexBooleanFalse] at h
  split at h
  · split at h
    · injection h with h1
      rw [← h1]
      simp
    · split at h <;> exact absurd h (by simp)
  · exact absurd h (by simp)

theorem lexBoolean_error_ne_fuel {input : List Char} {st : Lexer} {c : Crash}
    (h : lexBoolean input st = .error c) : c ≠ .outOfFuel := by
  rw [lexBoolean] at h
  split at h
  · injection h with h1
    rw [← h1]
    simp
  · split at h
    · split at h
      · injection h with h1
        rw [← h1]
        simp
      · split at h
        · exact absurd h (by simp)
        · exact lexBooleanFalse_error_ne_fuel h
    · exact lexBooleanFalse_error_ne_fuel h

theorem lexNull_error_ne_fuel {input : List Char} {st : Lexer} {c : Crash}
    (h : lexNull input st = .error c) : c ≠ .outOfFuel := by
  rw [lexNull] at h
  split at h
  · injection h with h1
    rw [← h1]
    simp
  · split at h
    · split at h
      · injection h with h1
        rw [← h1]
        simp
      · split at h <;> exact absurd h (by simp)
    · exact absurd h (by simp)

theorem mkError_ne_fatal_fuel {input : List Char} {st : Lexer} :
    mkError input st ≠ .fatal .outOfFuel := by
  rw [mkError]
  split <;> simp

/-- With fuel exceeding the number of bytes left to scan, the scanning loop
never exhausts its fuel: every iteration of the source advances the byte
cursor by at least one, so the fuel `byteLen input + 1` that `lex` supplies is
never exhausted. -/
theorem lex_fuel_sufficient :
    ∀ (fuel : Nat) (input : List Char) (st : Lexer) (tokens : List Token),
      byteLen input - st.index < fuel → lexLoopF fuel input st tokens ≠ .fatal .outOfFuel := by
  intro fuel
  induction fuel with
  | zero => intro input st tokens hb; omega
  | succ fuel ih =>
    intro input st tokens hb
    simp only [lexLoopF]
    split
    case isFalse hlt => simp
    case isTrue hlt =>
    split
    · rename_i c hx
      intro hcontra
      injection hcontra with hc
      exact eatWhitespace_error_ne_fuel hx hc
    · rename_i isWs st1 hx
      split
      · rename_i hw
        rw [hw] at hx
        have hp := eatWhitespace_true_progress hx
        exact ih input st1 tokens (by omega)
      · rename_i hw
        have hw' : isWs = false := by
          cases isWs
          · rfl
          · exact absurd rfl hw
        rw [hw'] at hx
        have he1 : st1 = st := eatWhitespace_false_eq hx
        subst he1
        split
        · rename_i c hx2
          intro hcontra
          injection hcontra with hc
          exact lexString_error_ne_fuel hx2 hc
        · rename_i s st2 hx2
          have hp := lexString_some_progress hx2
          exact ih input st2 _ (by omega)
        · rename_i st2 hx2
          have he2 : st2 = st1 := lexString_none_eq hx2
          subst he2
          split
          · rename_i c hx3
            intro hcontra
            injection hcontra with hc
            exact lexNumber_error_ne_fuel hx3 hc
          · rename_i n st3 hx3
            have hp := lexNumber_some_progress hx3
            exact ih input st3 _ (by omega)
          · rename_i st3 hx3
            have he3 : st3 = st2 := lexNumber_none_eq hx3
            subst he3
            split
            · rename_i c hx4
              intro hcontra
              injection hcontra with hc
              exact lexBoolean_error_ne_fuel hx4 hc
            · rename_i b st4 hx4
              have hp := lexBoolean_some_progress hx4
              exact ih input st4 _ (by omega)
            · rename_i st4 hx4
              have he4 : st4 = st3 := lexBoolean_none_eq hx4
              subst he4
              split
              · rename_i c hx5
                intro hcontra
                injection hcontra with hc
                exact lexNull_error_ne_fuel hx5 hc
              · rename_i st5 hx5
                have hp := lexNull_true_progress hx5
                exact ih input st5 _ (by omega)
              · rename_i st5 hx5
                have he5 : st5 = st4 := lexNull_false_eq hx5
                subst he5
                split
                · simp
                · rename_i cs hx6
                  split
                  · rename_i c rest
                    split
                    · exact ih input _ _ (by simp; omega)
                    · exact mkError_ne_fatal_fuel
                  · exact mkError_ne_fatal_fuel

/-- The top-level `parse` never observes the fuel artefact: its result is the
result the (fuel-free) Rust code computes. -/
theorem parse_never_out_of_fuel (input : List Char) :
    parse input ≠ .error .outOfFuel ∧ parse input ≠ .fatal .outOfFuel := by
  have hlex : lex input ≠ .fatal .outOfFuel :=
    lex_fuel_sufficient (byteLen input + 1) input ⟨0, 0, 0⟩ [] (by simp)
  cases hx : lex input with
  | fatal c =>
    have hp : parse input = .fatal c := by simp [parse, hx]
    rw [hx] at hlex
    have hc : c ≠ .outOfFuel := fun h => hlex (by rw [h])
    rw [hp]
    refine ⟨by simp, ?_⟩
    intro hcontra
    injection hcontra with h
    exact hc h
  | err e =>
    have hp : parse input = .error (.lexError e) := by simp [parse, hx]
    rw [hp]
    exact ⟨by simp, by simp⟩
  | ok tokens =>
    by_cases hemp : tokens.isEmpty
    · have hp : parse input = .ok none := by simp [parse, hx, hemp]
      rw [hp]
      exact ⟨by simp, by simp⟩
    · have hpv := (parse_fuel_sufficient (2 * tokens.length + 2)).1 tokens (by omega)
      cases hy : parseValueF (2 * tokens.length + 2) tokens with
      | error e =>
        have hp : parse input = .error e := by simp [parse, hx, hemp, hy]
        rw [hy] at hpv
        have he : e ≠ .outOfFuel := fun h => hpv (by rw [h])
        rw [hp]
        refine ⟨?_, by simp⟩
        intro hcontra
        injection hcontra with h
        exact he h
      | ok p =>
        obtain ⟨v, r⟩ := p
        have hp : parse input = .ok (some v) := by simp [parse, hx, hemp, hy]
        rw [hp]
        exact ⟨by simp, by simp⟩

end Pepper
